import Mathlib

set_option maxRecDepth 40000

/-!
Shallow embedding of `parse_ai_response` from `src/app.py` (the BugFix
repository).  Text is modelled as `List Char`; the three `re.search` calls
are modelled by explicit leftmost-occurrence search functions whose
semantics are derived from Python's backtracking regex engine on the three
concrete patterns used by the code (see the doc comments below).
-/

namespace BugFix

/-- Python's `\s` character class (and the character set stripped by
`str.strip()`), restricted to ASCII, which is all the code's patterns and
sentinels use. -/
def pySpace (c : Char) : Bool :=
  c = ' ' || c = '\t' || c = '\n' || c = '\r' || c = '\x0b' || c = '\x0c'

/-- The `[a-zA-Z]` character class of the code-fence regex on line 69. -/
def isAsciiAlphaB (c : Char) : Bool :=
  ('a' ≤ c && c ≤ 'z') || ('A' ≤ c && c ≤ 'Z')

/-- ASCII lowercasing: the effect of Python's `str.lower()` /
`re.IGNORECASE` on the ASCII text handled here. -/
def asciiLower (c : Char) : Char :=
  match c with
  | 'A' => 'a' | 'B' => 'b' | 'C' => 'c' | 'D' => 'd' | 'E' => 'e'
  | 'F' => 'f' | 'G' => 'g' | 'H' => 'h' | 'I' => 'i' | 'J' => 'j'
  | 'K' => 'k' | 'L' => 'l' | 'M' => 'm' | 'N' => 'n' | 'O' => 'o'
  | 'P' => 'p' | 'Q' => 'q' | 'R' => 'r' | 'S' => 's' | 'T' => 't'
  | 'U' => 'u' | 'V' => 'v' | 'W' => 'w' | 'X' => 'x' | 'Y' => 'y'
  | 'Z' => 'z' | c => c

/-- `text.lower()` on a character list. -/
def lower (l : List Char) : List Char := l.map asciiLower

/-- Remove trailing Python whitespace (the right half of `str.strip()`). -/
def dropTrailing (l : List Char) : List Char :=
  (l.reverse.dropWhile pySpace).reverse

/-- Python's `str.strip()`. -/
def pyStrip (l : List Char) : List Char := dropTrailing (l.dropWhile pySpace)

/-- Index of the leftmost occurrence of `pat` in a list, or `none`.  This is
the position at which `re.search` anchors a match whose pattern begins with
the literal `pat`. -/
def findSub (pat : List Char) : List Char → Option Nat
  | [] => if pat.isPrefixOf ([] : List Char) then some 0 else none
  | a :: t => if pat.isPrefixOf (a :: t) then some 0 else (findSub pat t).map (· + 1)

/-- Python's `pat in s` substring test. -/
def containsSub (pat s : List Char) : Bool := (findSub pat s).isSome

/-- Length of the maximal leading `\s*` run (what a greedy `\s*` consumes). -/
def wsRunLen (l : List Char) : Nat := (l.takeWhile pySpace).length

/-- Lowercased heading literal of the Error Details regex (line 46). -/
def edH : List Char := "## error details".toList

/-- Lowercased heading literal of the Corrected Code regexes (lines 46, 61). -/
def ccH : List Char := "## corrected code".toList

/-- Lowercased heading literal of the Suggestions regexes (lines 46, 88). -/
def sgH : List Char := "## suggestions".toList

/-- Keyword probed on line 54: `"error details" in response_text.lower()`. -/
def phraseED : List Char := "error details".toList

/-- Keyword probed on lines 77, 81 and 111. -/
def phraseCC : List Char := "corrected code".toList

/-- Keyword probed on line 103. -/
def phraseSG : List Char := "suggestions".toList

/-- Sentinel assigned on line 55. -/
def edSentinel : List Char :=
  "[Parsing Error: Could not isolate Error Details section]".toList

/-- Sentinel assigned on line 78. -/
def ccSentinelNoBlock : List Char :=
  "[Parsing Error: Found 'Corrected Code' heading but no valid code block immediately after it]".toList

/-- Sentinel assigned on line 82. -/
def ccSentinelNoHeading : List Char :=
  "[Parsing Error: Could not find '## Corrected Code' heading]".toList

/-- Placeholder assigned on line 99 when the captured suggestions are empty. -/
def noSuggestionsMsg : List Char := "[No specific suggestions provided.]".toList

/-- Sentinel assigned on line 104. -/
def sgSentinel : List Char := "[Parsing Error: Could not isolate Suggestions section]".toList

/-- End position of the Error Details capture, relative to the text that
follows the heading: the lookahead `(?=## Corrected Code|## Suggestions|\Z)`
of the line-46 regex succeeds at the earliest position that starts one of
the two headings, and at the end of the input; the lazy `(.*?)` stops at
the first such position. -/
def cutLen (u : List Char) : Nat :=
  match findSub ccH u, findSub sgH u with
  | some a, some b => min a b
  | some a, none => a
  | none, some b => b
  | none, none => u.length

/-- The `error_details` field (lines 45-56).  The regex
`## Error Details\s*(.*?)\s*(?=## Corrected Code|## Suggestions|\Z)` with
`DOTALL | IGNORECASE` matches iff the lowercased heading occurs; the
leftmost match anchors there, and `group(1).strip()` equals the strip of
the text between the heading end and the cut position, because the two
`\s*` only move whitespace (removed by `strip` anyway) across the group
boundaries. -/
def errorDetailsField (s : List Char) : Option (List Char) :=
  match findSub edH (lower s) with
  | some i =>
      let su := s.drop (i + edH.length)
      some (pyStrip (su.take (cutLen (lower su))))
  | none => if containsSub phraseED (lower s) then some edSentinel else none

/-- `response_text[corrected_code_heading_match.end():]` (lines 60-70): the
heading regex `## Corrected Code\s*` (IGNORECASE) anchors at the leftmost
occurrence `i` of the lowercased heading and its greedy `\s*` consumes the
maximal whitespace run after it. -/
def ccRegion (s : List Char) (i : Nat) : List Char :=
  s.drop (i + ccH.length + wsRunLen (s.drop (i + ccH.length)))

/-- One anchored match attempt of the fence regex
```(?:[a-zA-Z]*\n)?(.*?)\n``` (DOTALL, line 69) at the head of `r`,
returning `group(1)`: after the literal fence, the optional greedy group
consumes a maximal letter run iff a newline immediately follows it
(a shorter letter run is never followed by a newline, so `[a-zA-Z]*`
cannot backtrack); the lazy body then ends at the earliest later
occurrence of the literal `"\n```"`; if there is none the engine
backtracks and retries without the language-tag option. -/
def fenceInteriorHere (r : List Char) : Option (List Char) :=
  if ("```".toList).isPrefixOf r then
    let t := r.drop 3
    let letters := t.takeWhile isAsciiAlphaB
    let t2 := t.drop letters.length
    let tryLang : Option (List Char) :=
      match t2 with
      | a :: rest =>
          if a = '\n' then (findSub ("\n```".toList) rest).map (fun k => rest.take k)
          else none
      | [] => none
    match tryLang with
    | some g => some g
    | none => (findSub ("\n```".toList) t).map (fun k => t.take k)
  else none

/-- Leftmost match of the fence regex (the `re.search` on line 68):
anchored attempts at every position, first success wins. -/
def fenceSearch : List Char → Option (List Char)
  | [] => none
  | a :: t =>
      match fenceInteriorHere (a :: t) with
      | some g => some g
      | none => fenceSearch t

/-- The `corrected_code` field (lines 60-83). -/
def correctedCodeField (s : List Char) : Option (List Char) :=
  match findSub ccH (lower s) with
  | some i =>
      match fenceSearch (ccRegion s i) with
      | some g => some (pyStrip g)
      | none => if containsSub phraseCC (lower s) then some ccSentinelNoBlock else none
  | none => if containsSub phraseCC (lower s) then some ccSentinelNoHeading else none

/-- The `suggestions` field (lines 87-104).  The regex
`## Suggestions\s*(.*)` (DOTALL, IGNORECASE) anchors at the leftmost
occurrence of the lowercased heading; `group(1).strip()` equals the strip
of everything after the heading, since `\s*` only consumes whitespace that
`strip` would remove. -/
def suggestionsField (s : List Char) : Option (List Char) :=
  match findSub sgH (lower s) with
  | some i =>
      let v := pyStrip (s.drop (i + sgH.length))
      some (if v.isEmpty then noSuggestionsMsg else v)
  | none => if containsSub phraseSG (lower s) then some sgSentinel else none

/-- Whether the line-46 regex matched (the `if error_match:` branch,
line 50): exactly when the lowercased heading occurs. -/
def edLocated (s : List Char) : Bool := (findSub edH (lower s)).isSome

/-- Whether both the Corrected Code heading (line 65) and a code block
after it (line 73) were found. -/
def ccLocated (s : List Char) : Bool :=
  match findSub ccH (lower s) with
  | some i => (fenceSearch (ccRegion s i)).isSome
  | none => false

/-- Python truthiness test `not x` applied to a field: `None` and the empty
string are falsy (lines 98, 118). -/
def falsy : Option (List Char) → Bool
  | none => true
  | some l => l.isEmpty

/-- The `sections` dictionary built by `parse_ai_response` (lines 36-40). -/
structure Sections where
  error_details : Option (List Char)
  corrected_code : Option (List Char)
  suggestions : Option (List Char)
deriving DecidableEq, Repr

/-- `parse_ai_response` (lines 29-122).  `parsing_successful` starts `true`
(line 41), is cleared when the Error Details regex fails (line 56) and when
the Corrected Code heading or its code block is missing (lines 79, 83) --
i.e. it equals `edLocated && ccLocated` after the three sections -- then
line 109-112 clears it again when a mandatory field `is None` and a keyword
is present, and line 118-119 clears it when the input is non-empty and all
three fields are falsy. -/
def parse_ai_response (s : List Char) : Sections × Bool :=
  let ed := errorDetailsField s
  let cc := correctedCodeField s
  let sg := suggestionsField s
  let ok0 := edLocated s && ccLocated s
  let ok1 :=
    if (ed.isNone || cc.isNone) && (containsSub phraseED (lower s) || containsSub phraseCC (lower s))
    then false else ok0
  let ok2 := if !s.isEmpty && falsy ed && falsy cc && falsy sg then false else ok1
  (⟨ed, cc, sg⟩, ok2)

/-- No occurrence of `pat` can start strictly inside `x`, whatever text
follows `x`. -/
def NoStart (pat x : List Char) : Prop :=
  ∀ (y : List Char) (i : Nat), i < x.length → pat.isPrefixOf ((x ++ y).drop i) = false

/-- `pat` mismatches `x` at some index that lies inside both lists, so no
continuation of `x` can make `pat` a prefix. -/
def mism : List Char → List Char → Bool
  | [], _ => false
  | _ :: _, [] => false
  | p :: ps, a :: as => if p = a then mism ps as else true

/-- `mism` holds at every position of `x`: decidable certificate that no
occurrence of `pat` starts inside the concrete string `x`. -/
def mismAll (pat : List Char) : List Char → Bool
  | [] => true
  | a :: t => mism pat (a :: t) && mismAll pat t

/-- Input family for the happy path: the three headings in order, each with
content, and a fenced block with a language tag under Corrected Code.  With
`e`, `lang`, `c`, `g` instantiated to the spec's scenario values this is
exactly the §8 scenario string. -/
def happyInput (e lang c g : List Char) : List Char :=
  "## Error Details\n".toList ++ e ++ "\n## Corrected Code\n```".toList ++ lang
    ++ "\n".toList ++ c ++ "\n```\n## Suggestions\n".toList ++ g

/-- Input family with one fenced block (content `d`) before the Corrected
Code heading and one (content `c`) after it. -/
def twoFenceInput (d c : List Char) : List Char :=
  "```\n".toList ++ d ++ "\n```\n## Corrected Code\n```\n".toList ++ c ++ "\n```".toList

/-- Input family in which the Corrected Code heading is immediately followed
by a fenced block with language tag `lang` and interior `c`. -/
def langFenceInput (lang c : List Char) : List Char :=
  "## Corrected Code\n```".toList ++ lang ++ "\n".toList ++ c ++ "\n```".toList

/-- Input family with both mandatory sections well-formed and no
Suggestions section. -/
def noSugInput (e c : List Char) : List Char :=
  "## Error Details\n".toList ++ e ++ "\n## Corrected Code\n```\n".toList ++ c ++ "\n```".toList

/-- Input family in which no fenced block sits between the Corrected Code
heading and the Suggestions heading, but one (interior `c`) appears later,
inside the Suggestions section. -/
def lateFenceInput (e m g1 c : List Char) : List Char :=
  "## Error Details\n".toList ++ e ++ "\n## Corrected Code\n".toList ++ m
    ++ "\n## Suggestions\n".toList ++ g1 ++ "\n```\n".toList ++ c ++ "\n```".toList

end BugFix

namespace BugFix

theorem isPre_self (p z : List Char) : p.isPrefixOf (p ++ z) = true := by
  induction p with
  | nil => simp [List.isPrefixOf]
  | cons a t ih => simp [List.isPrefixOf, ih]

theorem isPre_head_ne {a b : Char} (p t : List Char) (h : a ≠ b) :
    (a :: p).isPrefixOf (b :: t) = false := by
  simp [List.isPrefixOf, h]

theorem isPre_drop (x p : List Char) : ∀ (l : List Char),
    (x ++ p).isPrefixOf l = true → p.isPrefixOf (l.drop x.length) = true := by
  induction x with
  | nil => intro l h; simpa using h
  | cons a t ih =>
    intro l h
    cases l with
    | nil => simp [List.isPrefixOf] at h
    | cons b l' =>
      simp only [List.cons_append, List.isPrefixOf, Bool.and_eq_true, beq_iff_eq] at h
      simpa using ih l' h.2

theorem findSub_here {pat s : List Char} (h : pat.isPrefixOf s = true) :
    findSub pat s = some 0 := by
  cases s <;> simp [findSub, h]

theorem findSub_cons_step {pat : List Char} {a : Char} {t : List Char}
    (h : pat.isPrefixOf (a :: t) = false) :
    findSub pat (a :: t) = (findSub pat t).map (· + 1) := by
  simp [findSub, h]

theorem mism_sound {pat : List Char} : ∀ {x : List Char}, mism pat x = true →
    ∀ (y : List Char), pat.isPrefixOf (x ++ y) = false := by
  induction pat with
  | nil => intro x h; simp [mism] at h
  | cons p ps ih =>
    intro x h y
    cases x with
    | nil => simp [mism] at h
    | cons a t =>
      by_cases hpa : p = a
      · subst hpa
        simp only [mism, if_pos rfl] at h
        simp [List.isPrefixOf, ih h]
      · simp [List.isPrefixOf, hpa]

theorem noStart_mismAll {pat : List Char} : ∀ {x : List Char},
    mismAll pat x = true → NoStart pat x := by
  intro x
  induction x with
  | nil => intro _ y i hi; simp at hi
  | cons a t ih =>
    intro h y i hi
    simp only [mismAll, Bool.and_eq_true] at h
    cases i with
    | zero => simpa using mism_sound h.1 y
    | succ j =>
      have := ih h.2 y j (by simpa using hi)
      simpa using this

theorem noStart_chars {p0 : Char} {pt : List Char} : ∀ {x : List Char},
    (∀ c ∈ x, c ≠ p0) → NoStart (p0 :: pt) x := by
  intro x
  induction x with
  | nil => intro _ y i hi; simp at hi
  | cons a t ih =>
    intro h y i hi
    cases i with
    | zero =>
      have ha : p0 ≠ a := fun he => (h a (by simp)) he.symm
      simpa using isPre_head_ne pt (t ++ y) ha
    | succ j =>
      have := ih (fun c hc => h c (by simp [hc])) y j (by simpa using hi)
      simpa using this

theorem noStart_append {pat x1 x2 : List Char} (h1 : NoStart pat x1) (h2 : NoStart pat x2) :
    NoStart pat (x1 ++ x2) := by
  intro y i hi
  rcases Nat.lt_or_ge i x1.length with hlt | hge
  · have := h1 (x2 ++ y) i hlt
    simpa [List.append_assoc] using this
  · obtain ⟨j, rfl⟩ : ∃ j, i = x1.length + j := ⟨i - x1.length, by omega⟩
    have hj : j < x2.length := by simp [List.length_append] at hi; omega
    have := h2 y j hj
    rw [List.append_assoc, List.drop_append]
    exact this

theorem findSub_skip {pat : List Char} : ∀ (x : List Char) {y : List Char},
    NoStart pat x → findSub pat (x ++ y) = (findSub pat y).map (· + x.length) := by
  intro x
  induction x with
  | nil =>
    intro y _
    cases h : findSub pat y <;> simp [h]
  | cons a t ih =>
    intro y h
    have h0 : pat.isPrefixOf (a :: (t ++ y)) = false := by
      simpa using h y 0 (by simp)
    have ht : NoStart pat t := by
      intro y' i hi
      have := h y' (i + 1) (by simpa using Nat.succ_lt_succ hi)
      simpa using this
    rw [List.cons_append, findSub_cons_step h0, ih ht]
    cases findSub pat y with
    | none => simp
    | some v => simp [Nat.add_assoc]

theorem findSub_param1 {p0 : Char} {pt : List Char} : ∀ (c : List Char) {y : List Char},
    (∀ ch ∈ c, ch ≠ p0) → (p0 :: pt).isPrefixOf y = true →
    findSub (p0 :: pt) (c ++ y) = some c.length := by
  intro c
  induction c with
  | nil => intro y _ hy; simpa using findSub_here hy
  | cons a t ih =>
    intro y hc hy
    have h0 : (p0 :: pt).isPrefixOf (a :: (t ++ y)) = false :=
      isPre_head_ne _ _ (fun he => (hc a (by simp)) he.symm)
    rw [List.cons_append, findSub_cons_step h0, ih (fun ch hch => hc ch (by simp [hch])) hy]
    simp

theorem findSub_param2 {p0 p1 : Char} {pt : List Char} : ∀ (c : List Char) {y : List Char},
    (∀ ch ∈ c, ch ≠ p1) → p0 ≠ p1 → (p0 :: p1 :: pt).isPrefixOf y = true →
    findSub (p0 :: p1 :: pt) (c ++ y) = some c.length := by
  intro c
  induction c with
  | nil => intro y _ _ hy; simpa using findSub_here hy
  | cons a t ih =>
    intro y hc hne hy
    obtain ⟨y', rfl⟩ : ∃ y', y = p0 :: y' := by
      cases y with
      | nil => simp [List.isPrefixOf] at hy
      | cons b y' =>
        simp only [List.isPrefixOf, Bool.and_eq_true, beq_iff_eq] at hy
        exact ⟨y', by rw [hy.1]⟩
    have h0 : (p0 :: p1 :: pt).isPrefixOf (a :: (t ++ (p0 :: y'))) = false := by
      by_cases hap : p0 = a
      · subst hap
        have h2 : (p1 :: pt).isPrefixOf (t ++ (p0 :: y')) = false := by
          cases t with
          | nil => exact isPre_head_ne _ _ (fun h => hne h.symm)
          | cons b t' =>
            have hb : p1 ≠ b := fun h => (hc b (by simp)) h.symm
            simpa [List.cons_append] using isPre_head_ne pt (t' ++ (p0 :: y')) hb
        simp [List.isPrefixOf, h2]
      · exact isPre_head_ne _ _ hap
    rw [List.cons_append, findSub_cons_step h0,
      ih (fun ch hch => hc ch (by simp [hch])) hne hy]
    simp

theorem findSub_found {pat : List Char} : ∀ {s : List Char} {i : Nat},
    findSub pat s = some i → pat.isPrefixOf (s.drop i) = true := by
  intro s
  induction s with
  | nil =>
    intro i h
    by_cases hp : pat.isPrefixOf ([] : List Char) = true
    · simp only [findSub, hp, if_true] at h
      cases h
      simpa using hp
    · simp only [findSub, hp, Bool.false_eq_true, if_false] at h
      cases h
  | cons a t ih =>
    intro i h
    cases hp : pat.isPrefixOf (a :: t) with
    | true =>
      simp only [findSub, hp, if_true] at h
      cases h
      simpa using hp
    | false =>
      rw [findSub_cons_step hp] at h
      cases hfs : findSub pat t with
      | none => rw [hfs] at h; simp at h
      | some j =>
        rw [hfs] at h
        simp only [Option.map_some', Option.some.injEq] at h
        subst h
        simpa using ih hfs

theorem findSub_mem_of {pat : List Char} : ∀ {s : List Char} (j : Nat),
    pat.isPrefixOf (s.drop j) = true → (findSub pat s).isSome = true := by
  intro s
  induction s with
  | nil =>
    intro j h
    have h0 : pat.isPrefixOf ([] : List Char) = true := by simpa using h
    simp [findSub, h0]
  | cons a t ih =>
    intro j h
    cases hp : pat.isPrefixOf (a :: t) with
    | true => simp [findSub_here hp]
    | false =>
      rw [findSub_cons_step hp]
      cases j with
      | zero => rw [List.drop_zero] at h; rw [h] at hp; cases hp
      | succ j' =>
        have hs := ih j' (by simpa using h)
        cases hfs : findSub pat t with
        | none => rw [hfs] at hs; simp at hs
        | some v => simp [hfs]

theorem findSub_none_inner {inner ls : List Char} (x : List Char)
    (h : containsSub inner ls = false) : findSub (x ++ inner) ls = none := by
  cases hfs : findSub (x ++ inner) ls with
  | none => rfl
  | some i =>
    have h1 := findSub_found hfs
    have h2 := isPre_drop x inner _ h1
    rw [List.drop_drop] at h2
    have h3 := findSub_mem_of (i + x.length) h2
    simp only [containsSub] at h
    rw [h] at h3
    cases h3

theorem takeWhile_run {q : Char → Bool} {b : Char} : ∀ (x : List Char) {z : List Char},
    (∀ a ∈ x, q a = true) → q b = false → (x ++ b :: z).takeWhile q = x := by
  intro x
  induction x with
  | nil => intro z _ hb; simp [List.takeWhile_cons, hb]
  | cons a t ih =>
    intro z hx hb
    simp [List.takeWhile_cons, hx a (by simp), ih (fun a ha => hx a (by simp [ha])) hb]

theorem pyStrip_cons_ws {a : Char} (h : pySpace a = true) (l : List Char) :
    pyStrip (a :: l) = pyStrip l := by
  simp [pyStrip, List.dropWhile_cons, h]

theorem dropTrailing_snoc {a : Char} (h : pySpace a = true) (l : List Char) :
    dropTrailing (l ++ [a]) = dropTrailing l := by
  simp [dropTrailing, List.reverse_append, List.dropWhile_cons, h]

theorem pyStrip_snoc_ws {a : Char} (h : pySpace a = true) : ∀ (l : List Char),
    pyStrip (l ++ [a]) = pyStrip l := by
  intro l
  induction l with
  | nil => simp [pyStrip, List.dropWhile_cons, h, dropTrailing]
  | cons b t ih =>
    by_cases hb : pySpace b = true
    · rw [List.cons_append, pyStrip_cons_ws hb, pyStrip_cons_ws hb, ih]
    · have hb' : pySpace b = false := by simpa using hb
      simp only [List.cons_append, pyStrip, List.dropWhile_cons, hb', Bool.false_eq_true,
        if_false]
      rw [show b :: (t ++ [a]) = (b :: t) ++ [a] from by simp, dropTrailing_snoc h]

theorem pyStrip_mem {a : Char} {l : List Char} (h : a ∈ pyStrip l) : a ∈ l := by
  have h1 : a ∈ (l.dropWhile pySpace).reverse.dropWhile pySpace := by
    simpa [pyStrip, dropTrailing] using h
  have h2 : a ∈ (l.dropWhile pySpace).reverse := (List.dropWhile_sublist pySpace).mem h1
  have h3 : a ∈ l.dropWhile pySpace := List.mem_reverse.mp h2
  exact (List.dropWhile_sublist pySpace).mem h3

theorem drop_len_add : ∀ (x y : List Char) {n m : Nat}, n = x.length + m →
    (x ++ y).drop n = y.drop m := by
  intro x
  induction x with
  | nil => intro y n m h; subst h; simp
  | cons a t ih =>
    intro y n m h
    have h2 : n = (t.length + m) + 1 := by simp [List.length_cons] at h; omega
    rw [h2, List.cons_append, List.drop_succ_cons, ih y rfl]

theorem drop_len_exact (x : List Char) {y : List Char} {n : Nat} (h : n = x.length) :
    (x ++ y).drop n = y := by
  have h2 := drop_len_add x y (show n = x.length + 0 by omega)
  simpa using h2

theorem take_len_add : ∀ (x y : List Char) {n m : Nat}, n = x.length + m →
    (x ++ y).take n = x ++ y.take m := by
  intro x
  induction x with
  | nil => intro y n m h; subst h; simp
  | cons a t ih =>
    intro y n m h
    have h2 : n = (t.length + m) + 1 := by simp [List.length_cons] at h; omega
    rw [h2, List.cons_append, List.take_succ_cons, ih y rfl, List.cons_append]

theorem take_len_exact (x : List Char) {y : List Char} {n : Nat} (h : n = x.length) :
    (x ++ y).take n = x := by
  have h2 := take_len_add x y (show n = x.length + 0 by omega)
  simp only [List.take_zero, List.append_nil] at h2
  exact h2

theorem isPre_refl (p : List Char) : p.isPrefixOf p = true := by
  have h := isPre_self p []
  rwa [List.append_nil] at h

theorem fenceSearch_here {r g : List Char} (h : fenceInteriorHere r = some g) :
    fenceSearch r = some g := by
  cases r with
  | nil =>
    rw [show fenceInteriorHere ([] : List Char) = none from by decide] at h
    cases h
  | cons a t => simp [fenceSearch, h]

theorem fenceSearch_skip : ∀ (x : List Char) {y : List Char}, (∀ ch ∈ x, ch ≠ '\x60') →
    fenceSearch (x ++ y) = fenceSearch y := by
  intro x
  induction x with
  | nil => intro y _; simp
  | cons a t ih =>
    intro y h
    have hpre : ("```".toList).isPrefixOf (a :: (t ++ y)) = false := by
      rw [show "```".toList = '\x60' :: "``".toList from by decide]
      exact isPre_head_ne _ _ (fun he => (h a (by simp)) he.symm)
    have hni : fenceInteriorHere (a :: (t ++ y)) = none := by
      unfold fenceInteriorHere
      rw [hpre]
      simp
    rw [List.cons_append]
    simp only [fenceSearch, hni]
    exact ih (fun ch hch => h ch (by simp [hch]))

theorem ccH_cons : ccH = '#' :: "# corrected code".toList := by decide

theorem ccH_not_nl (t : List Char) : ccH.isPrefixOf ('\n' :: t) = false := by
  rw [ccH_cons]
  exact isPre_head_ne _ _ (by decide)

/-- If the keyword `inner` occurs nowhere in `ls`, then no pattern ending
in `inner` occurs in any suffix of `ls`. -/
theorem findSub_none_of_phrase {ls : List Char} (x inner : List Char)
    (h : containsSub inner ls = false) (j : Nat) :
    findSub (x ++ inner) (ls.drop j) = none := by
  cases hfs : findSub (x ++ inner) (ls.drop j) with
  | none => rfl
  | some i =>
    have h1 := findSub_found hfs
    have h2 := isPre_drop x inner _ h1
    rw [List.drop_drop, List.drop_drop] at h2
    have h3 := findSub_mem_of _ h2
    simp only [containsSub] at h
    rw [h] at h3
    cases h3

theorem wsRun_nl_fence (t : List Char) : wsRunLen ('\n' :: ('\x60' :: t)) = 1 := by
  simp [wsRunLen, List.takeWhile_cons, show pySpace '\n' = true from by decide,
    show pySpace '\x60' = false from by decide]

/-- Anchored fence match with an alphabetic language tag `lang`, a
backtick-free interior `c` and arbitrary following text: the optional
`[a-zA-Z]*\n` group consumes the tag, and the lazy body stops at the first
closing fence. -/
theorem fenceInterior_lang_suffix (lang c suffix : List Char)
    (hlang : ∀ ch ∈ lang, isAsciiAlphaB ch = true)
    (hc : ∀ ch ∈ c, ch ≠ '\x60') :
    fenceInteriorHere ("```".toList ++ (lang ++ ('\n' :: (c ++ ("\n```".toList ++ suffix)))))
      = some c := by
  unfold fenceInteriorHere
  rw [if_pos (isPre_self _ _)]
  simp only []
  rw [drop_len_exact "```".toList (by decide),
    takeWhile_run lang hlang (show isAsciiAlphaB '\n' = false from by decide),
    drop_len_exact lang rfl]
  simp only []
  rw [if_pos trivial,
    show "\n```".toList = '\n' :: ('\x60' :: ('\x60' :: ('\x60' :: []))) from by decide,
    findSub_param2 c hc (show '\n' ≠ '\x60' from by decide) (isPre_self _ _)]
  simp only [Option.map_some']
  rw [take_len_exact c rfl]

/-- Anchored fence match with a language tag and nothing after the fence. -/
theorem fenceInterior_lang (lang c : List Char)
    (hlang : ∀ ch ∈ lang, isAsciiAlphaB ch = true)
    (hc : ∀ ch ∈ c, ch ≠ '\x60') :
    fenceInteriorHere ("```".toList ++ (lang ++ ('\n' :: (c ++ "\n```".toList))))
      = some c := by
  have h := fenceInterior_lang_suffix lang c [] hlang hc
  simpa using h

/-- Anchored fence match with no language tag. -/
theorem fenceInterior_plain (c : List Char) (hc : ∀ ch ∈ c, ch ≠ '\x60') :
    fenceInteriorHere ("```".toList ++ ('\n' :: (c ++ "\n```".toList))) = some c := by
  have h := fenceInterior_lang [] c (by simp) hc
  simpa using h

theorem sgH_cons : sgH = '#' :: "# suggestions".toList := by decide

theorem sgH_not_nl (t : List Char) : sgH.isPrefixOf ('\n' :: t) = false := by
  rw [sgH_cons]
  exact isPre_head_ne _ _ (by decide)

theorem edLocated_false_of_none {s : List Char} (h : errorDetailsField s = none) :
    edLocated s = false := by
  cases hfs : findSub edH (lower s) with
  | some i => simp [errorDetailsField, hfs] at h
  | none => simp [edLocated, hfs]

theorem ccLocated_false_of_none {s : List Char} (h : correctedCodeField s = none) :
    ccLocated s = false := by
  cases hfs : findSub ccH (lower s) with
  | none => simp [ccLocated, hfs]
  | some i =>
    cases hfe : fenceSearch (ccRegion s i) with
    | some g => simp [correctedCodeField, hfs, hfe] at h
    | none => simp [ccLocated, hfs, hfe]

/-- Claim C1, amended: the success flag is true iff both mandatory sections
were confidently located AND the final non-empty-input safety net (line 118)
does not fire; the safety net tests Python falsiness (`None` or empty), not
unsetness, so an input whose two mandatory sections are located but capture
empty text gets success=false exactly when the suggestions field is also
falsy -- hence the suggestions field can change the flag. -/
theorem success_iff_located (s : List Char) :
    (parse_ai_response s).2 =
      (edLocated s && ccLocated s &&
        !(!s.isEmpty && falsy (errorDetailsField s) && falsy (correctedCodeField s)
            && falsy (suggestionsField s))) := by
  simp only [parse_ai_response]
  by_cases h118 : (!s.isEmpty && falsy (errorDetailsField s) && falsy (correctedCodeField s)
      && falsy (suggestionsField s)) = true
  · rw [if_pos h118, h118]
    simp
  · have h118' : (!s.isEmpty && falsy (errorDetailsField s) && falsy (correctedCodeField s)
        && falsy (suggestionsField s)) = false := by simpa using h118
    rw [if_neg h118, h118']
    simp only [Bool.not_false, Bool.and_true]
    by_cases h109 : (((errorDetailsField s).isNone || (correctedCodeField s).isNone) &&
        (containsSub phraseED (lower s) || containsSub phraseCC (lower s))) = true
    · rw [if_pos h109]
      have hor : ((errorDetailsField s).isNone || (correctedCodeField s).isNone) = true :=
        (Bool.and_eq_true _ _).mp h109 |>.1
      rcases Bool.or_eq_true_iff.mp hor with hed | hcc
      · rw [edLocated_false_of_none (Option.isNone_iff_eq_none.mp hed)]
        simp
      · rw [ccLocated_false_of_none (Option.isNone_iff_eq_none.mp hcc)]
        simp
    · rw [if_neg h109]

/-- Claim C1 counterexample: on the first input both mandatory sections are
confidently located (heading matched, fenced block extracted) yet the flag
is false, refuting the "if and only if" direction; the second input differs
from the first only by an appended Suggestions section and gets flag true
while the mandatory fields are unchanged, refuting "the suggestions field
never changes the flag". -/
theorem c1_flag_counterexample :
    edLocated ("## Error Details\n## Corrected Code\n```\n\n```".toList) = true ∧
    ccLocated ("## Error Details\n## Corrected Code\n```\n\n```".toList) = true ∧
    (parse_ai_response ("## Error Details\n## Corrected Code\n```\n\n```".toList)).2 = false ∧
    (parse_ai_response
      ("## Error Details\n## Corrected Code\n```\n\n```\n## Suggestions\nhi".toList)).2 = true ∧
    (parse_ai_response ("## Error Details\n## Corrected Code\n```\n\n```".toList)).1.error_details
      = (parse_ai_response
          ("## Error Details\n## Corrected Code\n```\n\n```\n## Suggestions\nhi".toList)).1.error_details ∧
    (parse_ai_response ("## Error Details\n## Corrected Code\n```\n\n```".toList)).1.corrected_code
      = (parse_ai_response
          ("## Error Details\n## Corrected Code\n```\n\n```\n## Suggestions\nhi".toList)).1.corrected_code := by
  decide

/-- Claim C5: on the empty input every field is `None` and the flag is
false; in the embedding the call trivially runs to completion. -/
theorem parse_empty_input :
    parse_ai_response ("".toList) = (⟨none, none, none⟩, false) := by decide

/-- Claim C6: when the phrase "error details" occurs (case-insensitively)
but the heading never does, the error_details field holds the diagnostic
sentinel and the flag is false. -/
theorem errorDetails_keyword_fallback (s : List Char)
    (h1 : containsSub phraseED (lower s) = true)
    (h2 : findSub edH (lower s) = none) :
    (parse_ai_response s).1.error_details = some edSentinel ∧
    (parse_ai_response s).2 = false := by
  have hed : errorDetailsField s = some edSentinel := by
    simp [errorDetailsField, h2, h1]
  have hloc : edLocated s = false := by simp [edLocated, h2]
  constructor
  · simp [parse_ai_response, hed]
  · simp [parse_ai_response, hloc]

/-- Witness for C6 at a concrete input. -/
theorem errorDetails_keyword_fallback_witness :
    containsSub phraseED (lower ("the error details are wrong".toList)) = true ∧
    findSub edH (lower ("the error details are wrong".toList)) = none ∧
    (parse_ai_response ("the error details are wrong".toList)).1.error_details
      = some edSentinel ∧
    (parse_ai_response ("the error details are wrong".toList)).2 = false :=
  ⟨by decide, by decide,
    (errorDetails_keyword_fallback _ (by decide) (by decide)).1,
    (errorDetails_keyword_fallback _ (by decide) (by decide)).2⟩

/-- Claim C8: the parser is a total function of the input text: it returns a
sections record and a boolean on every input.  In the embedding this is
witnessed by `parse_ai_response` being a total Lean function. -/
theorem parse_always_returns (s : List Char) :
    ∃ (sec : Sections) (ok : Bool), parse_ai_response s = (sec, ok) :=
  ⟨(parse_ai_response s).1, (parse_ai_response s).2, rfl⟩

/-- Claim C9: determinism -- equal inputs give equal outputs; the embedded
parser takes no state besides the input text. -/
theorem parse_deterministic (s t : List Char) (h : s = t) :
    parse_ai_response s = parse_ai_response t := by rw [h]

/-- Witness for C9 at a concrete input. -/
theorem parse_deterministic_witness :
    parse_ai_response ("## Suggestions\nok".toList)
      = parse_ai_response ("## Suggestions\nok".toList) :=
  parse_deterministic _ _ rfl

/-- Claim C2: on any input with the three headings in order and well-formed
content (Error Details text `e` and fenced code `c` free of structural
characters, alphabetic language tag `lang`, suggestions text `g` with
nonempty trimmed content), all three fields hold the exact whitespace
trimmed interior text and the flag is true.  The spec's §8 scenario is the
instance `e = "Name undefined"`, `lang = "python"`, `c = "print('ok')"`,
`g = "Add type hints."`. -/
theorem parse_happy_path (e lang c g : List Char)
    (he : ∀ ch ∈ lower e, ch ≠ '#')
    (hlang : ∀ ch ∈ lang, isAsciiAlphaB ch = true)
    (hlang2 : ∀ ch ∈ lower lang, ch ≠ '#')
    (hcb : ∀ ch ∈ c, ch ≠ '\x60')
    (hch : ∀ ch ∈ lower c, ch ≠ '#')
    (hg : pyStrip g ≠ []) :
    parse_ai_response (happyInput e lang c g)
      = (⟨some (pyStrip e), some (pyStrip c), some (pyStrip g)⟩, true) := by
  have l3 : ccH.length = 17 := by decide
  have hlow : lower (happyInput e lang c g)
      = "## error details\n".toList ++ (List.map asciiLower e
          ++ ('\n' :: (ccH ++ ("\n```".toList ++ (List.map asciiLower lang
            ++ ('\n' :: (List.map asciiLower c ++ ("\n```\n".toList
              ++ (sgH ++ ('\n' :: List.map asciiLower g)))))))))) := by
    have g1 : List.map asciiLower ("## Error Details\n".toList)
        = "## error details\n".toList := by decide
    have g2 : List.map asciiLower ("\n## Corrected Code\n```".toList)
        = '\n' :: (ccH ++ "\n```".toList) := by decide
    have g3 : List.map asciiLower ("\n".toList) = ['\n'] := by decide
    have g4 : List.map asciiLower ("\n```\n## Suggestions\n".toList)
        = "\n```\n".toList ++ (sgH ++ ['\n']) := by decide
    simp only [happyInput, lower, List.map_append, g1, g2, g3, g4, List.append_assoc,
      List.cons_append, List.singleton_append, List.nil_append]
  have nse : NoStart ccH (List.map asciiLower e) := by
    rw [ccH_cons]; exact noStart_chars he
  have nseS : NoStart sgH (List.map asciiLower e) := by
    rw [sgH_cons]; exact noStart_chars he
  have nslS : NoStart sgH (List.map asciiLower lang) := by
    rw [sgH_cons]; exact noStart_chars hlang2
  have nscS : NoStart sgH (List.map asciiLower c) := by
    rw [sgH_cons]; exact noStart_chars hch
  have nc1 : NoStart ccH ("## error details\n".toList) := noStart_mismAll (by decide)
  have nm1 : NoStart sgH ("## error details\n".toList) := noStart_mismAll (by decide)
  have nm2 : NoStart sgH ccH := noStart_mismAll (by decide)
  have nm3 : NoStart sgH ("\n```".toList) := noStart_mismAll (by decide)
  have nm4 : NoStart sgH ("\n```\n".toList) := noStart_mismAll (by decide)
  -- heading positions in the whole input
  have hfs : findSub ccH (lower (happyInput e lang c g)) = some (e.length + 18) := by
    rw [hlow, findSub_skip _ nc1, findSub_skip _ nse, findSub_cons_step (ccH_not_nl _),
      findSub_here (isPre_self _ _)]
    simp only [Option.map_some', Option.some.injEq, List.length_map,
      show ("## error details\n".toList).length = 17 from by decide]
    omega
  have hfsed : findSub edH (lower (happyInput e lang c g)) = some 0 := by
    apply findSub_here
    rw [hlow, show "## error details\n".toList = edH ++ ['\n'] from by decide,
      List.append_assoc]
    exact isPre_self _ _
  have hsgm : findSub sgH (lower (happyInput e lang c g))
      = some (e.length + lang.length + c.length + 45) := by
    rw [hlow, findSub_skip _ nm1, findSub_skip _ nseS, findSub_cons_step (sgH_not_nl _),
      findSub_skip _ nm2, findSub_skip _ nm3, findSub_skip _ nslS,
      findSub_cons_step (sgH_not_nl _), findSub_skip _ nscS, findSub_skip _ nm4,
      findSub_here (isPre_self _ _)]
    simp only [Option.map_some', Option.some.injEq, List.length_map, l3,
      show ("## error details\n".toList).length = 17 from by decide,
      show ("\n```".toList).length = 4 from by decide,
      show ("\n```\n".toList).length = 5 from by decide]
    omega
  -- the text after the Error Details heading
  have hsu : (happyInput e lang c g).drop edH.length
      = '\n' :: (e ++ ("\n## Corrected Code\n```".toList ++ (lang ++ ("\n".toList
          ++ (c ++ ("\n```\n## Suggestions\n".toList ++ g)))))) := by
    have hsdefA : happyInput e lang c g
        = "## Error Details".toList ++ ('\n' :: (e ++ ("\n## Corrected Code\n```".toList
            ++ (lang ++ ("\n".toList ++ (c ++ ("\n```\n## Suggestions\n".toList ++ g))))))) := by
      have e1 : "## Error Details\n".toList
          = "## Error Details".toList ++ ['\n'] := by decide
      simp only [happyInput, e1, List.append_assoc, List.cons_append,
        List.singleton_append, List.nil_append]
    rw [hsdefA]
    exact drop_len_exact _ (by decide)
  have hlowsu : lower ((happyInput e lang c g).drop edH.length)
      = '\n' :: (List.map asciiLower e ++ ('\n' :: (ccH ++ ("\n```".toList
          ++ (List.map asciiLower lang ++ ('\n' :: (List.map asciiLower c
            ++ ("\n```\n".toList ++ (sgH ++ ('\n' :: List.map asciiLower g)))))))))) := by
    rw [hsu]
    have g2 : List.map asciiLower ("\n## Corrected Code\n```".toList)
        = '\n' :: (ccH ++ "\n```".toList) := by decide
    have g3 : List.map asciiLower ("\n".toList) = ['\n'] := by decide
    have g4 : List.map asciiLower ("\n```\n## Suggestions\n".toList)
        = "\n```\n".toList ++ (sgH ++ ['\n']) := by decide
    simp only [lower, List.map_cons, List.map_append, g2, g3, g4, List.append_assoc,
      List.cons_append, List.singleton_append, List.nil_append,
      show asciiLower '\n' = '\n' from by decide]
  have hccsu : findSub ccH (lower ((happyInput e lang c g).drop edH.length))
      = some (e.length + 2) := by
    rw [hlowsu, findSub_cons_step (ccH_not_nl _), findSub_skip _ nse,
      findSub_cons_step (ccH_not_nl _), findSub_here (isPre_self _ _)]
    simp only [Option.map_some', Option.some.injEq, List.length_map]
    omega
  have hsgsu : findSub sgH (lower ((happyInput e lang c g).drop edH.length))
      = some (e.length + lang.length + c.length + 29) := by
    rw [hlowsu, findSub_cons_step (sgH_not_nl _), findSub_skip _ nseS,
      findSub_cons_step (sgH_not_nl _), findSub_skip _ nm2, findSub_skip _ nm3,
      findSub_skip _ nslS, findSub_cons_step (sgH_not_nl _), findSub_skip _ nscS,
      findSub_skip _ nm4, findSub_here (isPre_self _ _)]
    simp only [Option.map_some', Option.some.injEq, List.length_map, l3,
      show ("\n```".toList).length = 4 from by decide,
      show ("\n```\n".toList).length = 5 from by decide]
    omega
  have hcut : cutLen (lower ((happyInput e lang c g).drop edH.length))
      = e.length + 2 := by
    simp only [cutLen, hccsu, hsgsu]
    omega
  -- the Error Details field
  have hed : errorDetailsField (happyInput e lang c g) = some (pyStrip e) := by
    simp only [errorDetailsField, hfsed, Nat.zero_add]
    rw [hcut, hsu]
    rw [show e.length + 2 = (e.length + 1) + 1 from by omega, List.take_succ_cons,
      take_len_add e _ rfl,
      show ("\n## Corrected Code\n```".toList ++ (lang ++ ("\n".toList
          ++ (c ++ ("\n```\n## Suggestions\n".toList ++ g)))))
        = '\n' :: ("## Corrected Code\n```".toList ++ (lang ++ ("\n".toList
          ++ (c ++ ("\n```\n## Suggestions\n".toList ++ g))))) from by
        rw [show "\n## Corrected Code\n```".toList
            = '\n' :: "## Corrected Code\n```".toList from by decide]
        simp,
      List.take_succ_cons, List.take_zero, pyStrip_cons_ws (by decide)]
    rw [pyStrip_snoc_ws (by decide)]
  -- the fence region and the Corrected Code field
  have hd17 : (happyInput e lang c g).drop (e.length + 18 + ccH.length)
      = "\n```".toList ++ (lang ++ ("\n".toList
          ++ (c ++ ("\n```\n## Suggestions\n".toList ++ g)))) := by
    have hsdefB : happyInput e lang c g
        = "## Error Details\n".toList ++ (e ++ ("\n## Corrected Code".toList
            ++ ("\n```".toList ++ (lang ++ ("\n".toList
              ++ (c ++ ("\n```\n## Suggestions\n".toList ++ g))))))) := by
      have e1 : "\n## Corrected Code\n```".toList
          = "\n## Corrected Code".toList ++ "\n```".toList := by decide
      simp only [happyInput, e1, List.append_assoc]
    rw [hsdefB,
      show e.length + 18 + ccH.length
          = ("## Error Details\n".toList).length + (e.length + 18) from by
        rw [l3, show ("## Error Details\n".toList).length = 17 from by decide]; omega,
      drop_len_add _ _ rfl, drop_len_add _ _ rfl]
    exact drop_len_exact _ (by decide)
  have hws : wsRunLen ((happyInput e lang c g).drop (e.length + 18 + ccH.length)) = 1 := by
    rw [hd17, show "\n```".toList = '\n' :: ('\x60' :: "``".toList) from by decide,
      List.cons_append, List.cons_append]
    exact wsRun_nl_fence _
  have hreg : ccRegion (happyInput e lang c g) (e.length + 18)
      = "```".toList ++ (lang ++ ('\n' :: (c ++ ("\n```".toList
          ++ ("\n## Suggestions\n".toList ++ g))))) := by
    unfold ccRegion
    rw [hws]
    have hsdefC : happyInput e lang c g
        = "## Error Details\n".toList ++ (e ++ ("\n## Corrected Code\n".toList
            ++ ("```".toList ++ (lang ++ ('\n' :: (c ++ ("\n```".toList
              ++ ("\n## Suggestions\n".toList ++ g)))))))) := by
      have e1 : "\n## Corrected Code\n```".toList
          = "\n## Corrected Code\n".toList ++ ("```".toList ++ []) := by decide
      have e2 : "\n".toList = ['\n'] := by decide
      have e3 : "\n```\n## Suggestions\n".toList
          = "\n```".toList ++ "\n## Suggestions\n".toList := by decide
      simp only [happyInput, e1, e2, e3, List.append_assoc, List.cons_append,
        List.singleton_append, List.nil_append]
    rw [hsdefC,
      show e.length + 18 + ccH.length + 1
          = ("## Error Details\n".toList).length + (e.length + 19) from by
        rw [l3, show ("## Error Details\n".toList).length = 17 from by decide]; omega,
      drop_len_add _ _ rfl, drop_len_add _ _ rfl]
    exact drop_len_exact _ (by decide)
  have hfe : fenceSearch (ccRegion (happyInput e lang c g) (e.length + 18)) = some c := by
    rw [hreg]
    exact fenceSearch_here
      (fenceInterior_lang_suffix lang c ("\n## Suggestions\n".toList ++ g) hlang hcb)
  have hcc : correctedCodeField (happyInput e lang c g) = some (pyStrip c) := by
    simp [correctedCodeField, hfs, hfe]
  -- the Suggestions field
  have hpg : (pyStrip g).isEmpty = false := by
    cases hq : pyStrip g with
    | nil => exact absurd hq hg
    | cons a t => simp
  have hdropsg : (happyInput e lang c g).drop
      (e.length + lang.length + c.length + 45 + sgH.length) = '\n' :: g := by
    have hsdefD : happyInput e lang c g
        = "## Error Details\n".toList ++ (e ++ ("\n## Corrected Code\n```".toList
            ++ (lang ++ (['\n'] ++ (c ++ ("\n```\n## Suggestions".toList
              ++ ('\n' :: g))))))) := by
      have e1 : "\n".toList = ['\n'] := by decide
      have e2 : "\n```\n## Suggestions\n".toList
          = "\n```\n## Suggestions".toList ++ ['\n'] := by decide
      simp only [happyInput, e1, e2, List.append_assoc, List.cons_append,
        List.singleton_append, List.nil_append]
    rw [hsdefD,
      show e.length + lang.length + c.length + 45 + sgH.length
          = ("## Error Details\n".toList).length + (e.length
              + (("\n## Corrected Code\n```".toList).length + (lang.length
                + ((['\n'] : List Char).length + (c.length
                  + ("\n```\n## Suggestions".toList).length))))) from by
        rw [show ("## Error Details\n".toList).length = 17 from by decide,
          show ("\n## Corrected Code\n```".toList).length = 22 from by decide,
          show ("\n```\n## Suggestions".toList).length = 19 from by decide,
          show sgH.length = 14 from by decide,
          show (['\n'] : List Char).length = 1 from by decide]
        omega,
      drop_len_add _ _ rfl, drop_len_add _ _ rfl, drop_len_add _ _ rfl,
      drop_len_add _ _ rfl, drop_len_add _ _ rfl, drop_len_add _ _ rfl]
    exact drop_len_exact _ rfl
  have hsgf : suggestionsField (happyInput e lang c g) = some (pyStrip g) := by
    simp only [suggestionsField, hsgm]
    rw [hdropsg, pyStrip_cons_ws (by decide), hpg]
    simp
  -- flags and assembly
  have hedloc : edLocated (happyInput e lang c g) = true := by
    simp [edLocated, hfsed]
  have hccloc : ccLocated (happyInput e lang c g) = true := by
    simp [ccLocated, hfs, hfe]
  simp [parse_ai_response, hed, hcc, hsgf, hedloc, hccloc, falsy, hpg]

/-- Witness for C2: the spec's §8 scenario, character for character. -/
theorem parse_happy_path_witness :
    parse_ai_response (happyInput ("Name undefined".toList) ("python".toList)
        ("print('ok')".toList) ("Add type hints.".toList))
      = (⟨some ("Name undefined".toList), some ("print('ok')".toList),
          some ("Add type hints.".toList)⟩, true) :=
  (parse_happy_path ("Name undefined".toList) ("python".toList) ("print('ok')".toList)
      ("Add type hints.".toList) (by decide) (by decide) (by decide) (by decide)
      (by decide) (by decide)).trans (by decide)

/-- Claim C7: with both mandatory sections well-formed (here: Error Details
content `e` with no hash mark and nonempty trimmed text, fenced code `c`
with no backtick) and the word "suggestions" absent from the whole input,
the suggestions field stays unset and the flag is still true: a missing
Suggestions section never forces failure. -/
theorem missing_suggestions_still_success (e c : List Char)
    (he : ∀ ch ∈ lower e, ch ≠ '#')
    (hc : ∀ ch ∈ c, ch ≠ '\x60')
    (hns : containsSub phraseSG (lower (noSugInput e c)) = false)
    (hnemp : pyStrip e ≠ []) :
    (parse_ai_response (noSugInput e c)).1.suggestions = none ∧
    (parse_ai_response (noSugInput e c)).2 = true := by
  have l3 : ccH.length = 17 := by decide
  -- the lowercased input, decomposed around the two headings
  have hlow : lower (noSugInput e c)
      = "## error details\n".toList ++ (List.map asciiLower e
          ++ ('\n' :: (ccH ++ ("\n```\n".toList
            ++ (List.map asciiLower c ++ "\n```".toList))))) := by
    have g1 : List.map asciiLower ("## Error Details\n".toList)
        = "## error details\n".toList := by decide
    have g2 : List.map asciiLower ("\n## Corrected Code\n```\n".toList)
        = '\n' :: (ccH ++ "\n```\n".toList) := by decide
    have g3 : List.map asciiLower ("\n```".toList) = "\n```".toList := by decide
    simp only [noSugInput, lower, List.map_append, g1, g2, g3, List.append_assoc,
      List.cons_append]
  have nse : NoStart ccH (List.map asciiLower e) := by
    rw [ccH_cons]
    exact noStart_chars he
  -- position of the Corrected Code heading
  have hfs : findSub ccH (lower (noSugInput e c)) = some (e.length + 18) := by
    rw [hlow, findSub_skip _ (noStart_mismAll (by decide)), findSub_skip _ nse,
      findSub_cons_step (ccH_not_nl _), findSub_here (isPre_self _ _)]
    simp only [Option.map_some', Option.some.injEq, List.length_map,
      show ("## error details\n".toList).length = 17 from by decide]
    omega
  -- position of the Error Details heading
  have hfsed : findSub edH (lower (noSugInput e c)) = some 0 := by
    apply findSub_here
    rw [hlow, show "## error details\n".toList = edH ++ ['\n'] from by decide,
      List.append_assoc]
    exact isPre_self _ _
  -- no Suggestions heading anywhere, in particular not after the ED heading
  have hsg_main : findSub sgH (lower (noSugInput e c)) = none := by
    rw [show sgH = "## ".toList ++ phraseSG from by decide]
    have h0 := findSub_none_of_phrase "## ".toList phraseSG hns 0
    simpa using h0
  have hcomm : lower ((noSugInput e c).drop edH.length)
      = (lower (noSugInput e c)).drop edH.length := by
    simp [lower, List.map_drop]
  have hsg_su : findSub sgH (lower ((noSugInput e c).drop edH.length)) = none := by
    rw [hcomm, show sgH = "## ".toList ++ phraseSG from by decide]
    exact findSub_none_of_phrase "## ".toList phraseSG hns _
  -- the text after the Error Details heading
  have hsu : (noSugInput e c).drop edH.length
      = '\n' :: (e ++ ("\n## Corrected Code\n```\n".toList
          ++ (c ++ "\n```".toList))) := by
    have hsdef : noSugInput e c
        = "## Error Details".toList ++ ('\n' :: (e
            ++ ("\n## Corrected Code\n```\n".toList ++ (c ++ "\n```".toList)))) := by
      have e1 : "## Error Details\n".toList = "## Error Details".toList ++ ['\n'] := by decide
      simp only [noSugInput, e1, List.append_assoc, List.cons_append,
        List.singleton_append, List.nil_append]
    rw [hsdef]
    exact drop_len_exact _ (by decide)
  have hlowsu : lower ((noSugInput e c).drop edH.length)
      = '\n' :: (List.map asciiLower e ++ ('\n' :: (ccH
          ++ ("\n```\n".toList ++ (List.map asciiLower c ++ "\n```".toList))))) := by
    rw [hsu]
    have g2 : List.map asciiLower ("\n## Corrected Code\n```\n".toList)
        = '\n' :: (ccH ++ "\n```\n".toList) := by decide
    have g3 : List.map asciiLower ("\n```".toList) = "\n```".toList := by decide
    simp only [lower, List.map_cons, List.map_append, g2, g3, List.append_assoc,
      List.cons_append, show asciiLower '\n' = '\n' from by decide]
  have hccsu : findSub ccH (lower ((noSugInput e c).drop edH.length))
      = some (e.length + 2) := by
    rw [hlowsu, findSub_cons_step (ccH_not_nl _), findSub_skip _ nse,
      findSub_cons_step (ccH_not_nl _), findSub_here (isPre_self _ _)]
    simp only [Option.map_some', Option.some.injEq, List.length_map]
    omega
  have hcut : cutLen (lower ((noSugInput e c).drop edH.length)) = e.length + 2 := by
    simp [cutLen, hccsu, hsg_su]
  -- the Error Details capture is e plus surrounding newlines
  have hed : errorDetailsField (noSugInput e c) = some (pyStrip e) := by
    simp only [errorDetailsField, hfsed, Nat.zero_add]
    rw [hcut, hsu]
    rw [show e.length + 2 = (e.length + 1) + 1 from by omega, List.take_succ_cons,
      take_len_add e _ rfl,
      show ("\n## Corrected Code\n```\n".toList ++ (c ++ "\n```".toList))
          = '\n' :: ("## Corrected Code\n```\n".toList ++ (c ++ "\n```".toList)) from by
        rw [show "\n## Corrected Code\n```\n".toList
            = '\n' :: "## Corrected Code\n```\n".toList from by decide]; simp,
      List.take_succ_cons, List.take_zero,
      pyStrip_cons_ws (by decide)]
    rw [pyStrip_snoc_ws (by decide)]
  -- the fence region and its match
  have hd17 : (noSugInput e c).drop (e.length + 18 + ccH.length)
      = "\n```\n".toList ++ (c ++ "\n```".toList) := by
    have hsdef : noSugInput e c
        = "## Error Details\n".toList ++ (e ++ ("\n## Corrected Code".toList
            ++ ("\n```\n".toList ++ (c ++ "\n```".toList)))) := by
      have e1 : "\n## Corrected Code\n```\n".toList
          = "\n## Corrected Code".toList ++ "\n```\n".toList := by decide
      simp only [noSugInput, e1, List.append_assoc]
    rw [hsdef,
      show e.length + 18 + ccH.length
          = ("## Error Details\n".toList).length + (e.length + 18) from by
        rw [l3, show ("## Error Details\n".toList).length = 17 from by decide]; omega,
      drop_len_add _ _ rfl, drop_len_add _ _ rfl]
    exact drop_len_exact _ (by decide)
  have hws : wsRunLen ((noSugInput e c).drop (e.length + 18 + ccH.length)) = 1 := by
    rw [hd17, show "\n```\n".toList = '\n' :: ('\x60' :: "``\n".toList) from by decide,
      List.cons_append, List.cons_append]
    exact wsRun_nl_fence _
  have hreg : ccRegion (noSugInput e c) (e.length + 18)
      = "```".toList ++ ('\n' :: (c ++ "\n```".toList)) := by
    unfold ccRegion
    rw [hws]
    have hsdef : noSugInput e c
        = "## Error Details\n".toList ++ (e ++ ("\n## Corrected Code\n".toList
            ++ ("```".toList ++ ('\n' :: (c ++ "\n```".toList))))) := by
      have e1 : "\n## Corrected Code\n```\n".toList
          = "\n## Corrected Code\n".toList ++ ("```".toList ++ ['\n']) := by decide
      simp only [noSugInput, e1, List.append_assoc, List.cons_append,
        List.singleton_append, List.nil_append]
    rw [hsdef,
      show e.length + 18 + ccH.length + 1
          = ("## Error Details\n".toList).length + (e.length + 19) from by
        rw [l3, show ("## Error Details\n".toList).length = 17 from by decide]; omega,
      drop_len_add _ _ rfl, drop_len_add _ _ rfl]
    exact drop_len_exact _ (by decide)
  have hfe : fenceSearch (ccRegion (noSugInput e c) (e.length + 18)) = some c := by
    rw [hreg]
    exact fenceSearch_here (fenceInterior_plain c hc)
  have hcc : correctedCodeField (noSugInput e c) = some (pyStrip c) := by
    simp [correctedCodeField, hfs, hfe]
  -- the suggestions field is unset
  have hsgf : suggestionsField (noSugInput e c) = none := by
    simp [suggestionsField, hsg_main, hns]
  -- flags
  have hedloc : edLocated (noSugInput e c) = true := by simp [edLocated, hfsed]
  have hccloc : ccLocated (noSugInput e c) = true := by simp [ccLocated, hfs, hfe]
  have hpe : (pyStrip e).isEmpty = false := by
    cases hq : pyStrip e with
    | nil => exact absurd hq hnemp
    | cons a t => simp
  constructor
  · simp [parse_ai_response, hsgf]
  · simp [parse_ai_response, hed, hcc, hsgf, hedloc, hccloc, falsy, hpe]

/-- Witness for C7 at the spec's own example input
`"## Error Details\nFoo\n## Corrected Code\n` + fence + `bar` + fence. -/
theorem missing_suggestions_still_success_witness :
    (parse_ai_response (noSugInput ("Foo".toList) ("bar".toList))).1.suggestions = none ∧
    (parse_ai_response (noSugInput ("Foo".toList) ("bar".toList))).2 = true :=
  missing_suggestions_still_success ("Foo".toList) ("bar".toList)
    (by decide) (by decide) (by decide) (by decide)

/-- Claim C4: when the Corrected Code heading is immediately followed by a
fenced block with an arbitrary alphabetic language tag `lang` and interior
`c` (backtick-free), the extracted corrected_code is exactly the trimmed
interior: the fence markers and the language tag are not part of it, and in
particular it contains no backtick whatever `lang` is. -/
theorem correctedCode_excludes_fence_and_tag (lang c : List Char)
    (hlang : ∀ ch ∈ lang, isAsciiAlphaB ch = true)
    (hc : ∀ ch ∈ c, ch ≠ '\x60') :
    (parse_ai_response (langFenceInput lang c)).1.corrected_code = some (pyStrip c) ∧
    ∀ ch ∈ pyStrip c, ch ≠ '\x60' := by
  refine ⟨?_, fun ch hch => hc ch (pyStrip_mem hch)⟩
  have hsdef : langFenceInput lang c
      = "## Corrected Code".toList ++ ("\n```".toList
          ++ (lang ++ ("\n".toList ++ (c ++ "\n```".toList)))) := by
    have e5 : "## Corrected Code\n```".toList
        = "## Corrected Code".toList ++ "\n```".toList := by decide
    simp [langFenceInput, e5, List.append_assoc]
  have m1 : List.map asciiLower ("## Corrected Code".toList) = ccH := by decide
  have hfs : findSub ccH (lower (langFenceInput lang c)) = some 0 := by
    apply findSub_here
    rw [hsdef]
    simp only [lower, List.map_append, m1]
    exact isPre_self _ _
  have hd17 : (langFenceInput lang c).drop (0 + ccH.length)
      = "\n```".toList ++ (lang ++ ("\n".toList ++ (c ++ "\n```".toList))) := by
    rw [hsdef]
    exact drop_len_exact _ (by decide)
  have hws : wsRunLen ((langFenceInput lang c).drop (0 + ccH.length)) = 1 := by
    rw [hd17, show "\n```".toList = '\n' :: ('\x60' :: "``".toList) from by decide]
    simp only [List.cons_append]
    simp [wsRunLen, List.takeWhile_cons, show pySpace '\n' = true from by decide,
      show pySpace '\x60' = false from by decide]
  have hreg : ccRegion (langFenceInput lang c) 0
      = "```".toList ++ (lang ++ ('\n' :: (c ++ "\n```".toList))) := by
    unfold ccRegion
    rw [hws]
    have hsdef2 : langFenceInput lang c
        = "## Corrected Code\n".toList ++ ("```".toList
            ++ (lang ++ ('\n' :: (c ++ "\n```".toList)))) := by
      have e7 : "## Corrected Code\n```".toList
          = "## Corrected Code\n".toList ++ "```".toList := by decide
      have e8 : "\n".toList = ['\n'] := by decide
      simp [langFenceInput, e7, e8, List.append_assoc]
    rw [hsdef2]
    exact drop_len_exact _ (by decide)
  have hfence : fenceInteriorHere ("```".toList ++ (lang ++ ('\n' :: (c ++ "\n```".toList))))
      = some c := fenceInterior_lang lang c hlang hc
  have hcc : correctedCodeField (langFenceInput lang c) = some (pyStrip c) := by
    have hfe : fenceSearch (ccRegion (langFenceInput lang c) 0) = some c := by
      rw [hreg]
      exact fenceSearch_here hfence
    simp [correctedCodeField, hfs, hfe]
  simp [parse_ai_response, hcc]

/-- Claim C3: with one fenced block (interior `d`) before the Corrected
Code heading and one (interior `c`) after it, corrected_code is the trimmed
interior of the block after the heading: the search region starts at the
end of the heading match, so the earlier block is never consulted. -/
theorem correctedCode_uses_fence_after_heading (d c : List Char)
    (hd : ∀ ch ∈ lower d, ch ≠ '#')
    (hc : ∀ ch ∈ c, ch ≠ '\x60') :
    (parse_ai_response (twoFenceInput d c)).1.corrected_code = some (pyStrip c) := by
  have l1 : ("```\n".toList).length = 4 := by decide
  have l3 : ccH.length = 17 := by decide
  have hlow : lower (twoFenceInput d c)
      = "```\n".toList ++ (List.map asciiLower d ++ ("\n```\n".toList ++ (ccH
          ++ ("\n```\n".toList ++ (List.map asciiLower c ++ "\n```".toList))))) := by
    have g1 : List.map asciiLower ("```\n".toList) = "```\n".toList := by decide
    have g2 : List.map asciiLower ("\n```\n## Corrected Code\n```\n".toList)
        = "\n```\n".toList ++ (ccH ++ "\n```\n".toList) := by decide
    have g3 : List.map asciiLower ("\n```".toList) = "\n```".toList := by decide
    simp only [twoFenceInput, lower, List.map_append, g1, g2, g3, List.append_assoc]
  have n1 : NoStart ccH ("```\n".toList) := noStart_mismAll (by decide)
  have n2 : NoStart ccH ("\n```\n".toList) := noStart_mismAll (by decide)
  have hnsd : NoStart ccH (List.map asciiLower d) := by
    rw [show ccH = '#' :: "# corrected code".toList from by decide]
    exact noStart_chars hd
  have hfs : findSub ccH (lower (twoFenceInput d c)) = some (d.length + 9) := by
    rw [hlow, findSub_skip _ n1, findSub_skip _ hnsd, findSub_skip _ n2,
      findSub_here (isPre_self _ _)]
    simp only [Option.map_some', Option.some.injEq, l1, List.length_map,
      show ("\n```\n".toList).length = 5 from by decide]
    omega
  have hd17 : (twoFenceInput d c).drop (d.length + 9 + ccH.length)
      = "\n```\n".toList ++ (c ++ "\n```".toList) := by
    have hsdef : twoFenceInput d c
        = "```\n".toList ++ (d ++ ("\n```\n## Corrected Code".toList
            ++ ("\n```\n".toList ++ (c ++ "\n```".toList)))) := by
      have e1 : "\n```\n## Corrected Code\n```\n".toList
          = "\n```\n## Corrected Code".toList ++ "\n```\n".toList := by decide
      simp only [twoFenceInput, e1, List.append_assoc]
    rw [hsdef,
      show d.length + 9 + ccH.length = ("```\n".toList).length + (d.length + 22) from by
        rw [l1, l3]; omega,
      drop_len_add _ _ rfl, drop_len_add _ _ rfl]
    exact drop_len_exact _ (by decide)
  have hws : wsRunLen ((twoFenceInput d c).drop (d.length + 9 + ccH.length)) = 1 := by
    rw [hd17, show "\n```\n".toList = '\n' :: ('\x60' :: "``\n".toList) from by decide]
    simp only [List.cons_append]
    simp [wsRunLen, List.takeWhile_cons, show pySpace '\n' = true from by decide,
      show pySpace '\x60' = false from by decide]
  have hreg : ccRegion (twoFenceInput d c) (d.length + 9)
      = "```".toList ++ ('\n' :: (c ++ "\n```".toList)) := by
    unfold ccRegion
    rw [hws]
    have hsdef3 : twoFenceInput d c
        = "```\n".toList ++ (d ++ ("\n```\n## Corrected Code\n".toList
            ++ ("```".toList ++ ('\n' :: (c ++ "\n```".toList))))) := by
      have e2 : "\n```\n## Corrected Code\n```\n".toList
          = "\n```\n## Corrected Code\n".toList ++ ("```".toList ++ ['\n']) := by decide
      simp only [twoFenceInput, e2, List.append_assoc, List.cons_append,
        List.singleton_append, List.nil_append]
    rw [hsdef3,
      show d.length + 9 + ccH.length + 1 = ("```\n".toList).length + (d.length + 23) from by
        rw [l1, l3]; omega,
      drop_len_add _ _ rfl, drop_len_add _ _ rfl]
    exact drop_len_exact _ (by decide)
  have hfence : fenceInteriorHere ("```".toList ++ ('\n' :: (c ++ "\n```".toList)))
      = some c := fenceInterior_plain c hc
  have hfe : fenceSearch (ccRegion (twoFenceInput d c) (d.length + 9)) = some c := by
    rw [hreg]
    exact fenceSearch_here hfence
  have hcc : correctedCodeField (twoFenceInput d c) = some (pyStrip c) := by
    simp [correctedCodeField, hfs, hfe]
  simp [parse_ai_response, hcc]

/-- Witness for C3 at a concrete input. -/
theorem correctedCode_uses_fence_after_heading_witness :
    (parse_ai_response (twoFenceInput ("first".toList) ("second".toList))).1.corrected_code
      = some ("second".toList) :=
  (correctedCode_uses_fence_after_heading ("first".toList) ("second".toList)
      (by decide) (by decide)).trans (by decide)

/-- Witness for C4 at a concrete input. -/
theorem correctedCode_excludes_fence_and_tag_witness :
    (parse_ai_response (langFenceInput ("python".toList) ("x = 1".toList))).1.corrected_code
      = some ("x = 1".toList) :=
  ((correctedCode_excludes_fence_and_tag ("python".toList) ("x = 1".toList)
      (by decide) (by decide)).1).trans (by decide)

/-- Claim C10: the code-block search after the Corrected Code heading is
bounded only by the end of the input, not by the next heading.  When no
fence sits between that heading and the Suggestions heading (the mid text
`m` and the suggestions prefix `g1` are backtick-free; `m` starts with a
non-whitespace character, so the heading's `\s*` stops before it) but a
fenced block with interior `c` appears later, inside the Suggestions
section, corrected_code is set to that later block's trimmed interior and
the flag stays true: no sentinel and no failure for the Corrected Code
section. -/
theorem correctedCode_search_crosses_suggestions (e m g1 c : List Char)
    (he : ∀ ch ∈ lower e, ch ≠ '#')
    (hm : ∀ ch ∈ lower m, ch ≠ '#')
    (hmb : ∀ ch ∈ m, ch ≠ '\x60')
    (hm0 : ∃ m1 mt, m = m1 :: mt ∧ pySpace m1 = false)
    (hg1b : ∀ ch ∈ g1, ch ≠ '\x60')
    (hcb : ∀ ch ∈ c, ch ≠ '\x60')
    (hnemp : pyStrip e ≠ []) :
    (parse_ai_response (lateFenceInput e m g1 c)).1.corrected_code
      = some (pyStrip c) ∧
    (parse_ai_response (lateFenceInput e m g1 c)).2 = true := by
  obtain ⟨m1, mt, hmeq, hm1w⟩ := hm0
  have l3 : ccH.length = 17 := by decide
  have hlow : lower (lateFenceInput e m g1 c)
      = "## error details\n".toList ++ (List.map asciiLower e
          ++ ('\n' :: (ccH ++ ('\n' :: (List.map asciiLower m
            ++ ('\n' :: (sgH ++ ('\n' :: (List.map asciiLower g1
              ++ ("\n```\n".toList ++ (List.map asciiLower c
                ++ "\n```".toList))))))))))) := by
    have ga : List.map asciiLower ("## Error Details\n".toList)
        = "## error details\n".toList := by decide
    have gb : List.map asciiLower ("\n## Corrected Code\n".toList)
        = '\n' :: (ccH ++ ['\n']) := by decide
    have gc : List.map asciiLower ("\n## Suggestions\n".toList)
        = '\n' :: (sgH ++ ['\n']) := by decide
    have gd : List.map asciiLower ("\n```\n".toList) = "\n```\n".toList := by decide
    have ge : List.map asciiLower ("\n```".toList) = "\n```".toList := by decide
    simp only [lateFenceInput, lower, List.map_append, ga, gb, gc, gd, ge,
      List.append_assoc, List.cons_append, List.singleton_append, List.nil_append]
  have nse : NoStart ccH (List.map asciiLower e) := by
    rw [ccH_cons]; exact noStart_chars he
  have nseS : NoStart sgH (List.map asciiLower e) := by
    rw [sgH_cons]; exact noStart_chars he
  have nsmS : NoStart sgH (List.map asciiLower m) := by
    rw [sgH_cons]; exact noStart_chars hm
  have nc1 : NoStart ccH ("## error details\n".toList) := noStart_mismAll (by decide)
  have nm2 : NoStart sgH ccH := noStart_mismAll (by decide)
  have hfs : findSub ccH (lower (lateFenceInput e m g1 c))
      = some (e.length + 18) := by
    rw [hlow, findSub_skip _ nc1, findSub_skip _ nse, findSub_cons_step (ccH_not_nl _),
      findSub_here (isPre_self _ _)]
    simp only [Option.map_some', Option.some.injEq, List.length_map,
      show ("## error details\n".toList).length = 17 from by decide]
    omega
  have hfsed : findSub edH (lower (lateFenceInput e m g1 c)) = some 0 := by
    apply findSub_here
    rw [hlow, show "## error details\n".toList = edH ++ ['\n'] from by decide,
      List.append_assoc]
    exact isPre_self _ _
  have hsu : (lateFenceInput e m g1 c).drop edH.length
      = '\n' :: (e ++ ("\n## Corrected Code\n".toList ++ (m
          ++ ("\n## Suggestions\n".toList ++ (g1 ++ ("\n```\n".toList
            ++ (c ++ "\n```".toList))))))) := by
    have hsdefA : lateFenceInput e m g1 c
        = "## Error Details".toList ++ ('\n' :: (e ++ ("\n## Corrected Code\n".toList
            ++ (m ++ ("\n## Suggestions\n".toList ++ (g1
              ++ ("\n```\n".toList ++ (c ++ "\n```".toList)))))))) := by
      have e1 : "## Error Details\n".toList
          = "## Error Details".toList ++ ['\n'] := by decide
      simp only [lateFenceInput, e1, List.append_assoc, List.cons_append,
        List.singleton_append, List.nil_append]
    rw [hsdefA]
    exact drop_len_exact _ (by decide)
  have hlowsu : lower ((lateFenceInput e m g1 c).drop edH.length)
      = '\n' :: (List.map asciiLower e ++ ('\n' :: (ccH
          ++ ('\n' :: (List.map asciiLower m ++ ('\n' :: (sgH
            ++ ('\n' :: (List.map asciiLower g1 ++ ("\n```\n".toList
              ++ (List.map asciiLower c ++ "\n```".toList))))))))))) := by
    rw [hsu]
    have gb : List.map asciiLower ("\n## Corrected Code\n".toList)
        = '\n' :: (ccH ++ ['\n']) := by decide
    have gc : List.map asciiLower ("\n## Suggestions\n".toList)
        = '\n' :: (sgH ++ ['\n']) := by decide
    have gd : List.map asciiLower ("\n```\n".toList) = "\n```\n".toList := by decide
    have ge : List.map asciiLower ("\n```".toList) = "\n```".toList := by decide
    simp only [lower, List.map_cons, List.map_append, gb, gc, gd, ge,
      List.append_assoc, List.cons_append, List.singleton_append, List.nil_append,
      show asciiLower '\n' = '\n' from by decide]
  have hccsu : findSub ccH (lower ((lateFenceInput e m g1 c).drop edH.length))
      = some (e.length + 2) := by
    rw [hlowsu, findSub_cons_step (ccH_not_nl _), findSub_skip _ nse,
      findSub_cons_step (ccH_not_nl _), findSub_here (isPre_self _ _)]
    simp only [Option.map_some', Option.some.injEq, List.length_map]
    omega
  have hsgsu : findSub sgH (lower ((lateFenceInput e m g1 c).drop edH.length))
      = some (e.length + m.length + 21) := by
    rw [hlowsu, findSub_cons_step (sgH_not_nl _), findSub_skip _ nseS,
      findSub_cons_step (sgH_not_nl _), findSub_skip _ nm2,
      findSub_cons_step (sgH_not_nl _), findSub_skip _ nsmS,
      findSub_cons_step (sgH_not_nl _), findSub_here (isPre_self _ _)]
    simp only [Option.map_some', Option.some.injEq, List.length_map, l3]
    omega
  have hcut : cutLen (lower ((lateFenceInput e m g1 c).drop edH.length))
      = e.length + 2 := by
    simp only [cutLen, hccsu, hsgsu]
    omega
  have hed : errorDetailsField (lateFenceInput e m g1 c)
      = some (pyStrip e) := by
    simp only [errorDetailsField, hfsed, Nat.zero_add]
    rw [hcut, hsu]
    rw [show e.length + 2 = (e.length + 1) + 1 from by omega, List.take_succ_cons,
      take_len_add e _ rfl,
      show ("\n## Corrected Code\n".toList ++ (m
            ++ ("\n## Suggestions\n".toList ++ (g1 ++ ("\n```\n".toList
              ++ (c ++ "\n```".toList))))))
          = '\n' :: ("## Corrected Code\n".toList ++ (m
            ++ ("\n## Suggestions\n".toList ++ (g1 ++ ("\n```\n".toList
              ++ (c ++ "\n```".toList)))))) from by
        rw [show "\n## Corrected Code\n".toList
            = '\n' :: "## Corrected Code\n".toList from by decide]
        simp,
      List.take_succ_cons, List.take_zero, pyStrip_cons_ws (by decide)]
    rw [pyStrip_snoc_ws (by decide)]
  have hd17 : (lateFenceInput e m g1 c).drop (e.length + 18 + ccH.length)
      = '\n' :: (m ++ ("\n## Suggestions\n".toList ++ (g1
          ++ ("\n```\n".toList ++ (c ++ "\n```".toList))))) := by
    have hsdefB : lateFenceInput e m g1 c
        = "## Error Details\n".toList ++ (e ++ ("\n## Corrected Code".toList
            ++ ('\n' :: (m ++ ("\n## Suggestions\n".toList ++ (g1
              ++ ("\n```\n".toList ++ (c ++ "\n```".toList)))))))) := by
      have e1 : "\n## Corrected Code\n".toList
          = "\n## Corrected Code".toList ++ ['\n'] := by decide
      simp only [lateFenceInput, e1, List.append_assoc, List.cons_append,
        List.singleton_append, List.nil_append]
    rw [hsdefB,
      show e.length + 18 + ccH.length
          = ("## Error Details\n".toList).length + (e.length + 18) from by
        rw [l3, show ("## Error Details\n".toList).length = 17 from by decide]; omega,
      drop_len_add _ _ rfl, drop_len_add _ _ rfl]
    exact drop_len_exact _ (by decide)
  have hws : wsRunLen ((lateFenceInput e m g1 c).drop
      (e.length + 18 + ccH.length)) = 1 := by
    rw [hd17, hmeq, List.cons_append]
    simp [wsRunLen, List.takeWhile_cons, show pySpace '\n' = true from by decide, hm1w]
  have hreg : ccRegion (lateFenceInput e m g1 c) (e.length + 18)
      = m ++ ("\n## Suggestions\n".toList ++ (g1 ++ (['\n']
          ++ ("```".toList ++ (['\n'] ++ (c ++ "\n```".toList)))))) := by
    unfold ccRegion
    rw [hws]
    have hsdefC : lateFenceInput e m g1 c
        = "## Error Details\n".toList ++ (e ++ ("\n## Corrected Code\n".toList
            ++ (m ++ ("\n## Suggestions\n".toList ++ (g1 ++ (['\n']
              ++ ("```".toList ++ (['\n'] ++ (c ++ "\n```".toList))))))))) := by
      have e1 : "\n```\n".toList = ['\n'] ++ ("```".toList ++ ['\n']) := by decide
      simp only [lateFenceInput, e1, List.append_assoc, List.nil_append]
    rw [hsdefC,
      show e.length + 18 + ccH.length + 1
          = ("## Error Details\n".toList).length + (e.length + 19) from by
        rw [l3, show ("## Error Details\n".toList).length = 17 from by decide]; omega,
      drop_len_add _ _ rfl, drop_len_add _ _ rfl]
    exact drop_len_exact _ (by decide)
  have hSgl : ∀ ch ∈ ("\n## Suggestions\n".toList), ch ≠ '\x60' := by decide
  have hnl1 : ∀ ch ∈ (['\n'] : List Char), ch ≠ '\x60' := by decide
  have hfe : fenceSearch (ccRegion (lateFenceInput e m g1 c) (e.length + 18))
      = some c := by
    rw [hreg, fenceSearch_skip _ hmb, fenceSearch_skip _ hSgl, fenceSearch_skip _ hg1b,
      fenceSearch_skip _ hnl1,
      show "```".toList ++ (['\n'] ++ (c ++ "\n```".toList))
          = "```".toList ++ ('\n' :: (c ++ "\n```".toList)) from by simp]
    exact fenceSearch_here (fenceInterior_plain c hcb)
  have hcc : correctedCodeField (lateFenceInput e m g1 c)
      = some (pyStrip c) := by
    simp [correctedCodeField, hfs, hfe]
  have hedloc : edLocated (lateFenceInput e m g1 c) = true := by
    simp [edLocated, hfsed]
  have hccloc : ccLocated (lateFenceInput e m g1 c) = true := by
    simp [ccLocated, hfs, hfe]
  have hpe : (pyStrip e).isEmpty = false := by
    cases hq : pyStrip e with
    | nil => exact absurd hq hnemp
    | cons a t => simp
  constructor
  · simp [parse_ai_response, hcc]
  · simp [parse_ai_response, hed, hcc, hedloc, hccloc, falsy, hpe]

/-- Witness for C10 at a concrete input: the fence with interior `X` sits
inside the Suggestions section, after a Corrected Code section that has no
code block of its own. -/
theorem correctedCode_search_crosses_suggestions_witness :
    (parse_ai_response (lateFenceInput ("Foo".toList) ("no code here".toList)
        ("see".toList) ("X".toList))).1.corrected_code = some ("X".toList) ∧
    (parse_ai_response (lateFenceInput ("Foo".toList) ("no code here".toList)
        ("see".toList) ("X".toList))).2 = true :=
  ⟨((correctedCode_search_crosses_suggestions ("Foo".toList) ("no code here".toList)
      ("see".toList) ("X".toList) (by decide) (by decide) (by decide)
      ⟨'n', "o code here".toList, by decide, by decide⟩
      (by decide) (by decide) (by decide)).1).trans (by decide),
   (correctedCode_search_crosses_suggestions ("Foo".toList) ("no code here".toList)
      ("see".toList) ("X".toList) (by decide) (by decide) (by decide)
      ⟨'n', "o code here".toList, by decide, by decide⟩
      (by decide) (by decide) (by decide)).2⟩

end BugFix
